import Mathlib

/-!
Verification of the extraction driver (`src/extractor/extractor.cpp`) of an
OSM routing-graph extraction stage.  The definitions below are a shallow
embedding of the functions of that translation unit: `SetClassNames`,
`SetExcludableClasses`, the phase structure of `Extractor::ParseOSMData`,
`Extractor::FindComponents`, `Extractor::BuildRTree` and the free function
`IsSegregated`.  Machine integers are modelled as `Nat`/`Int`; the `double`
lengths compared by `IsSegregated` are modelled as `Rat` (all threshold
values are small integers, exactly representable, and the comparisons used
are order comparisons only); C++ exceptions are modelled with `Except`.
-/

namespace OSRM

/-- `ClassData`: fixed-width bitmask over user-defined road classes. -/
abbrev ClassData := Nat

/-- Modelled from the spec: `MAX_CLASS_INDEX` is declared outside `src/`;
the spec only says `ClassData` holds at most `MAX_CLASS_INDEX + 1` classes.
The concrete value is irrelevant to the theorems below. -/
def MAX_CLASS_INDEX : Nat := 7

/-- Modelled from the spec: `MAX_EXCLUDABLE_CLASSES` is declared outside
`src/`; the spec bounds the number of excludable combinations by it. -/
def MAX_EXCLUDABLE_CLASSES : Nat := 8

/-- Modelled from the spec: `getClassData` (declared outside `src/`) turns a
class index into its single-bit mask. -/
def getClassData (index : Nat) : ClassData := 2 ^ index

/-- Modelled from the spec: `getClassIndexes` (declared outside `src/`) lists
the set bit positions of a mask, in increasing order. -/
def getClassIndexes (mask : ClassData) : List Nat :=
  (List.range (mask + 1)).filter (fun i => mask.testBit i)

/-- Modelled from the spec: `isValidClassName` (declared outside `src/`);
the spec requires class names to match `[A-Za-z0-9]+`. -/
def isValidClassName (name : String) : Bool :=
  name.length > 0 && name.toList.all (fun c => c.isAlphanum)

/-- Association-list lookup, modelling `classes_map.find(name)`.  The map is
modelled as an association list; its C++ iteration order is modelled as the
list order. -/
def findMap (classes_map : List (String × ClassData)) (name : String) : Option ClassData :=
  match classes_map with
  | [] => none
  | p :: rest => if p.1 = name then some p.2 else findMap rest name

/-- Profile properties, restricted to the two write targets the embedded
functions touch: `SetClassName(index, name)` and
`SetExcludableClasses(index, mask)` calls are recorded in order. -/
structure ProfileProperties where
  class_name_writes : List (Nat × String)
  excludable_writes : List (Nat × ClassData)
  deriving DecidableEq

/-- Errors thrown by `SetClassNames` (lines 77-125).  The fourth constructor
marks the undefined `range.front()` call on an empty range in the final write
loop (the code only guards it with a `BOOST_ASSERT`, inactive in release). -/
inductive SCNError
  | invalidClassName (name : String)
  | tooManyClasses
  | unknownClassName (name : String)
  | emptyClassIndexRange (name : String)
  deriving DecidableEq

/-- First loop of `SetClassNames` (lines 87-106): validate each declared name
and add missing declared names to the map with the next free index. -/
def addClassNames (classes_map : List (String × ClassData)) :
    List String → Except SCNError (List (String × ClassData))
  | [] => .ok classes_map
  | name :: rest =>
    if isValidClassName name = false then
      .error (.invalidClassName name)
    else
      match findMap classes_map name with
      | some _ => addClassNames classes_map rest
      | none =>
        let index := classes_map.length
        if index > MAX_CLASS_INDEX then
          .error .tooManyClasses
        else
          addClassNames (classes_map ++ [(name, getClassData index)]) rest

/-- Second loop of `SetClassNames` (lines 109-116): every key of the map must
occur in the declared class-name list. -/
def checkUsedClasses (class_names : List String) :
    List (String × ClassData) → Except SCNError Unit
  | [] => .ok ()
  | p :: rest =>
    if class_names.contains p.1 then checkUsedClasses class_names rest
    else .error (.unknownClassName p.1)

/-- Final loop of `SetClassNames` (lines 119-124): write
`SetClassName(getClassIndexes(mask).front(), name)` for every map entry. -/
def writeClassNames (props : ProfileProperties) :
    List (String × ClassData) → Except SCNError ProfileProperties
  | [] => .ok props
  | p :: rest =>
    match getClassIndexes p.2 with
    | [] => .error (.emptyClassIndexRange p.1)
    | idx :: _ =>
      writeClassNames
        { props with class_name_writes := props.class_name_writes ++ [(idx, p.1)] } rest

/-- `SetClassNames` (lines 77-125): when the declared list is non-empty,
validate names, extend the map with unused declared names, and reject map
keys outside the declared list; then (always) write every map entry into the
profile properties. -/
def SetClassNames (class_names : List String) (classes_map : List (String × ClassData))
    (profile_properties : ProfileProperties) :
    Except SCNError (List (String × ClassData) × ProfileProperties) :=
  let validated : Except SCNError (List (String × ClassData)) :=
    if class_names.isEmpty then .ok classes_map
    else
      match addClassNames classes_map class_names with
      | .error e => .error e
      | .ok classes_map =>
        match checkUsedClasses class_names classes_map with
        | .error e => .error e
        | .ok _ => .ok classes_map
  match validated with
  | .error e => .error e
  | .ok classes_map =>
    match writeClassNames profile_properties classes_map with
    | .error e => .error e
    | .ok props => .ok (classes_map, props)

/-- Error thrown by `SetExcludableClasses` (lines 132-136). -/
inductive SECError
  | tooManyExcludable
  deriving DecidableEq

/-- Mask of one excludable combination (lines 144-157): OR of the map values
of its names; unknown names are logged and ignored. -/
def resolveMask (classes_map : List (String × ClassData)) (combination : List String) : ClassData :=
  combination.foldl
    (fun mask name =>
      match findMap classes_map name with
      | none => mask
      | some c => mask ||| c)
    0

/-- Write loop of `SetExcludableClasses` (lines 141-163): combinations with a
non-zero resolved mask are written at `combination_index`, which is advanced
only on a write. -/
def writeExcludable (classes_map : List (String × ClassData)) (props : ProfileProperties)
    (combination_index : Nat) : List (List String) → ProfileProperties
  | [] => props
  | combination :: rest =>
    let mask := resolveMask classes_map combination
    if mask > 0 then
      writeExcludable classes_map
        { props with excludable_writes := props.excludable_writes ++ [(combination_index, mask)] }
        (combination_index + 1) rest
    else
      writeExcludable classes_map props combination_index rest

/-- `SetExcludableClasses` (lines 128-164): reject more than
`MAX_EXCLUDABLE_CLASSES` combinations, reserve index 0 for the empty mask,
then write the surviving combinations from index 1 on. -/
def SetExcludableClasses (classes_map : List (String × ClassData))
    (excludable_classes : List (List String)) (profile_properties : ProfileProperties) :
    Except SECError ProfileProperties :=
  if excludable_classes.length > MAX_EXCLUDABLE_CLASSES then
    .error .tooManyExcludable
  else
    .ok (writeExcludable classes_map
      { profile_properties with
        excludable_writes := profile_properties.excludable_writes ++ [(0, 0)] }
      1 excludable_classes)

/-- One raw edge accumulated by the extractor callbacks during parsing; only
its presence in `all_edges_list` matters to the embedded driver. -/
structure RawEdge where
  source : Nat
  target : Nat
  deriving DecidableEq

/-- Phases of `Extractor::ParseOSMData` (lines 346-595), in program order:
the relation pipeline (lines 543-548), the nodes-and-ways pipeline (lines
550-562) — together the ingestion —, `PrepareData` (line 579), the class-name
validation (line 584), the excludable-class conversion (line 586) and the
profile-properties write (line 587). -/
inductive Phase
  | parseRelations
  | parseNodesWays
  | prepareData
  | setClassNames
  | setExcludableClasses
  | writeProfileProperties
  deriving DecidableEq

/-- Fatal errors of the embedded part of `ParseOSMData`. -/
inductive ExtractionError
  | noEdgesRemaining
  | scn (e : SCNError)
  | sec (e : SECError)
  deriving DecidableEq

/-- The error kinds the spec calls `InvalidProfileDeclaration`: illegal class
name, too many classes, too many excludable combinations, class used but not
declared. -/
def isInvalidProfileDeclaration : ExtractionError → Bool
  | .scn (.invalidClassName _) => true
  | .scn .tooManyClasses => true
  | .scn (.unknownClassName _) => true
  | .scn (.emptyClassIndexRange _) => false
  | .sec .tooManyExcludable => true
  | .noEdgesRemaining => false

/-- Inputs of `ParseOSMData` that the embedded phases consume: the state the
ingestion pipelines leave behind (edge list and classes map accumulated via
the extractor callbacks) and the profile declarations queried afterwards. -/
structure ParseInput where
  all_edges_list : List RawEdge
  class_names : List String
  classes_map : List (String × ClassData)
  excludable_classes : List (List String)

/-- Phase structure of `ParseOSMData` (lines 543-594): run both ingestion
pipelines, fail if no edges remain (line 573), run `PrepareData` (line 579),
then validate and write the profile declarations (lines 583-587).  Returns
the completed phases in order together with the error, if any. -/
def ParseOSMData (inp : ParseInput) (profile_properties : ProfileProperties) :
    List Phase × Option ExtractionError :=
  let trace := [Phase.parseRelations, Phase.parseNodesWays]
  if inp.all_edges_list.isEmpty then
    (trace, some .noEdgesRemaining)
  else
    let trace := trace ++ [Phase.prepareData]
    match SetClassNames inp.class_names inp.classes_map profile_properties with
    | .error e => (trace, some (.scn e))
    | .ok (classes_map, props) =>
      let trace := trace ++ [Phase.setClassNames]
      match SetExcludableClasses classes_map inp.excludable_classes props with
      | .error e => (trace, some (.sec e))
      | .ok _ =>
        (trace ++ [Phase.setExcludableClasses, Phase.writeProfileProperties], none)

/-- `EdgeBasedEdge` payload; of the source struct only the fields
`FindComponents` reads are kept (`weight`, `forward`, `backward`). -/
structure EdgeBasedEdgeData where
  weight : Int
  forward : Bool
  backward : Bool
  deriving DecidableEq

/-- `EdgeBasedEdge`: a legal turn between two edge-based nodes. -/
structure EdgeBasedEdge where
  source : Nat
  target : Nat
  data : EdgeBasedEdgeData
  deriving DecidableEq

/-- A segment id with its `enabled` bit. -/
structure SegmentID where
  id : Nat
  enabled : Bool
  deriving DecidableEq

/-- `EdgeBasedNodeSegment`, restricted to the fields the embedded functions
read (the geometry fields are not consumed by `FindComponents` or by the
compaction loop of `BuildRTree`). -/
structure EdgeBasedNodeSegment where
  forward_segment_id : SegmentID
  reverse_segment_id : SegmentID
  deriving DecidableEq

/-- The assertion on line 609:
`static_cast<unsigned>(std::max(edge.data.weight, 1)) > 0` with message
"edge distance < 1".  The cast maps the positive int32 `max(weight, 1)` to
the same value, so the checked condition is `0 < max weight 1`. -/
def fcWeightAssert (e : EdgeBasedEdge) : Bool :=
  decide (0 < max e.data.weight 1)

/-- The assertions on lines 611-612: both endpoints are below the edge-based
node count. -/
def fcEndpointAssert (number_of_edge_based_nodes : Nat) (e : EdgeBasedEdge) : Bool :=
  decide (e.source < number_of_edge_based_nodes) &&
    decide (e.target < number_of_edge_based_nodes)

/-- First materialization loop of `FindComponents` (lines 607-622): emit
`(source, target)` for forward edges and `(target, source)` for backward
edges, in input order. -/
def fcDirectedEdges : List EdgeBasedEdge → List (Nat × Nat)
  | [] => []
  | e :: rest =>
    (if e.data.forward then [(e.source, e.target)] else []) ++
      (if e.data.backward then [(e.target, e.source)] else []) ++ fcDirectedEdges rest

/-- Second materialization loop of `FindComponents` (lines 626-635): for each
segment with an enabled reverse id, emit mate-edges in both directions. -/
def fcMateEdges : List EdgeBasedNodeSegment → List (Nat × Nat)
  | [] => []
  | s :: rest =>
    (if s.reverse_segment_id.enabled then
        [(s.forward_segment_id.id, s.reverse_segment_id.id),
          (s.reverse_segment_id.id, s.forward_segment_id.id)]
      else []) ++ fcMateEdges rest

/-- The full materialized edge list of `FindComponents` before sorting. -/
def fcEdges (input_edge_list : List EdgeBasedEdge)
    (input_node_segments : List EdgeBasedNodeSegment) : List (Nat × Nat) :=
  fcDirectedEdges input_edge_list ++ fcMateEdges input_node_segments

/-- Lexicographic order on materialized edges, the order
`SortableEdgeWithData` sorts by. -/
def edgeLE (a b : Nat × Nat) : Bool :=
  decide (a.1 < b.1) || (decide (a.1 = b.1) && decide (a.2 ≤ b.2))

/-- Sorted insertion for `sortEdges`. -/
def insertEdge (x : Nat × Nat) : List (Nat × Nat) → List (Nat × Nat)
  | [] => [x]
  | y :: rest => if edgeLE x y then x :: y :: rest else y :: insertEdge x rest

/-- The sort on line 637 (modelled as insertion sort; only the order of the
result is relevant downstream). -/
def sortEdges : List (Nat × Nat) → List (Nat × Nat)
  | [] => []
  | x :: rest => insertEdge x (sortEdges rest)

/-- Tail walk of `std::unique`: drop elements equal to the most recently
kept one. -/
def dedupAdjGo (prev : Nat × Nat) : List (Nat × Nat) → List (Nat × Nat)
  | [] => []
  | b :: rest => if b = prev then dedupAdjGo prev rest else b :: dedupAdjGo b rest

/-- `std::unique` on line 638: drop adjacent duplicates, keeping the first of
each run. -/
def dedupAdj : List (Nat × Nat) → List (Nat × Nat)
  | [] => []
  | a :: rest => a :: dedupAdjGo a rest

/-- The edge list of the `UncontractedGraph` built on line 640: materialized
edges, sorted and freed of duplicates. -/
def fcGraphEdges (input_edge_list : List EdgeBasedEdge)
    (input_node_segments : List EdgeBasedNodeSegment) : List (Nat × Nat) :=
  dedupAdj (sortEdges (fcEdges input_edge_list input_node_segments))

/-- One expansion step of the reachable set of a node: add the targets of
all edges leaving the current set. -/
def reachStep (E : List (Nat × Nat)) (S : Finset Nat) : Finset Nat :=
  S ∪ (E.filterMap (fun p => if p.1 ∈ S then some p.2 else none)).toFinset

/-- The set of nodes reachable from `s` along `E`: iterating `reachStep`
`E.length + 1` times reaches a fixpoint (each productive step adds at least
one of the at most `E.length` edge targets). -/
def reachSet (E : List (Nat × Nat)) (s : Nat) : Finset Nat :=
  (reachStep E)^[E.length + 1] {s}

/-- Decidable reachability. -/
def reachB (E : List (Nat × Nat)) (s t : Nat) : Bool :=
  decide (t ∈ reachSet E s)

/-- Two nodes lie in the same strongly-connected component when each reaches
the other. -/
def sameComponent (E : List (Nat × Nat)) (u v : Nat) : Bool :=
  reachB E u v && reachB E v u

/-- Modelled from the spec: `TarjanSCC` (header `tarjan_scc.hpp`, outside
`src/`).  The spec says component ids label the strongly-connected
components of the materialized graph; the model labels the component of `v`
by its smallest member below the node count `n`. -/
def GetComponentID (E : List (Nat × Nat)) (n : Nat) (v : Nat) : Nat :=
  (((List.range n).filter (fun u => sameComponent E u v)).headD v)

/-- Modelled from the spec: component size of `TarjanSCC` — the number of
nodes labelled with the given component id. -/
def GetComponentSize (E : List (Nat × Nat)) (n : Nat) (c : Nat) : Nat :=
  ((List.range n).filter (fun v => GetComponentID E n v = c)).length

/-- The label `FindComponents` stores per edge-based node (line 651):
component id and tiny flag. -/
structure ComponentID where
  id : Nat
  is_tiny : Bool
  deriving DecidableEq

/-- `Extractor::FindComponents` (lines 597-653): materialize the directed
edge list with mate-edges, sort and deduplicate it, run the SCC search, and
label every edge-based node with `1 + component` and the tiny flag
`component size < small_component_size` (lines 645-652). -/
def FindComponents (small_component_size : Nat) (number_of_edge_based_nodes : Nat)
    (input_edge_list : List EdgeBasedEdge)
    (input_node_segments : List EdgeBasedNodeSegment) : List ComponentID :=
  let E := fcGraphEdges input_edge_list input_node_segments
  (List.range number_of_edge_based_nodes).map (fun node_id =>
    let forward_component := GetComponentID E number_of_edge_based_nodes node_id
    let component_size := GetComponentSize E number_of_edge_based_nodes forward_component
    { id := 1 + forward_component,
      is_tiny := decide (component_size < small_component_size) })

/-- The compaction loop of `BuildRTree` (lines 768-779): keep the segments
whose index in `node_is_startpoint` is true.  The loop runs over the indices
of `node_is_startpoint`, advancing through the segments in step. -/
def filterByFlags : List EdgeBasedNodeSegment → List Bool → List EdgeBasedNodeSegment
  | _, [] => []
  | [], _ :: _ => []
  | s :: srest, f :: frest =>
    if f then s :: filterByFlags srest frest else filterByFlags srest frest

/-- The fatal error of `BuildRTree` (lines 781-786). -/
inductive RTreeError
  | noSnappableEdges
  deriving DecidableEq

/-- `Extractor::BuildRTree` (lines 758-797): compact the segments to the
start-point-eligible ones and fail when none are left; on success the
compacted list is the one handed to the `StaticRTree` constructor (the
R-tree construction itself lives outside `src/`). -/
def BuildRTree (edge_based_node_segments : List EdgeBasedNodeSegment)
    (node_is_startpoint : List Bool) : Except RTreeError (List EdgeBasedNodeSegment) :=
  let kept := filterByFlags edge_based_node_segments node_is_startpoint
  if kept.length = 0 then .error .noSnappableEdges else .ok kept

/-- Modelled from the spec: `guidance::RoadPriorityClass::Enum` (header
outside `src/`); only the constructors `IsSegregated` distinguishes are
modelled, every remaining enumerator is collapsed into `other`. -/
inductive RoadPriorityClass
  | motorway
  | trunk
  | primary
  | secondary
  | tertiary
  | other
  deriving DecidableEq

/-- `EdgeInfo` (lines 841-858): one neighbor record of the segregated-edge
detector.  `direction` is 0 for outgoing, 1 for incoming, 2 for both.  The
`util::StringView` name is modelled as its character list; `LessName`
compares names lexicographically, which is the `<` of `List Char`. -/
structure EdgeInfo where
  node : Nat
  name : List Char
  direction : Nat
  road_class : ClassData
  road_priority_class : RoadPriorityClass
  deriving DecidableEq

/-- Sorted insertion for `sortByName`. -/
def insertByName (x : EdgeInfo) : List EdgeInfo → List EdgeInfo
  | [] => [x]
  | y :: rest =>
    if y.name < x.name then y :: insertByName x rest else x :: y :: rest

/-- The `std::sort` with `EdgeInfo::LessName` on lines 868-873 (modelled as
insertion sort; `std::sort` fixes no order among equal names). -/
def sortByName : List EdgeInfo → List EdgeInfo
  | [] => []
  | x :: rest => insertByName x (sortByName rest)

/-- The `std::binary_search` with `LessName` on line 885: on a list sorted by
name it holds exactly when some entry carries the probed name. -/
def findNameIn (v : List EdgeInfo) (name : List Char) : Bool :=
  v.any (fun e => e.name = name)

/-- Body of the merge loop on lines 893-912, clocked by the combined length
of the two lists (each iteration of the while loop consumes at least one
element, so the clock never runs out before a list does). -/
def mergeCommonsGo : Nat → List EdgeInfo → List EdgeInfo → List (EdgeInfo × EdgeInfo)
  | _, [], _ => []
  | _, _ :: _, [] => []
  | 0, _ :: _, _ :: _ => []
  | fuel + 1, a :: r1, b :: r2 =>
    if a.name = b.name then
      (if a.name = [] then [] else [(a, b)]) ++ mergeCommonsGo fuel r1 r2
    else if a.name < b.name then
      mergeCommonsGo fuel r1 (b :: r2)
    else
      mergeCommonsGo fuel (a :: r1) r2

/-- The merge loop on lines 893-912: walk both name-sorted lists and pair up
entries with equal non-empty names, advancing both sides on a match. -/
def mergeCommons (l1 l2 : List EdgeInfo) : List (EdgeInfo × EdgeInfo) :=
  mergeCommonsGo (l1.length + l2.length) l1 l2

/-- The common pairs `IsSegregated` computes from its two neighbor lists. -/
def segCommons (v1 v2 : List EdgeInfo) : List (EdgeInfo × EdgeInfo) :=
  mergeCommons (sortByName v1) (sortByName v2)

/-- The equal-class test on lines 917-920. -/
def equalClassPair (e : EdgeInfo × EdgeInfo) : Bool :=
  decide (e.1.road_class = e.2.road_class)

/-- `get_length_threshold` (lines 930-944): per-priority-class length
threshold contribution. -/
def get_length_threshold (e : EdgeInfo) : Rat :=
  match e.road_priority_class with
  | .motorway => 30
  | .trunk => 30
  | .primary => 20
  | .secondary => 10
  | .tertiary => 10
  | .other => 5

/-- The threshold fold on lines 946-949: minimum of
`get_length_threshold a + get_length_threshold b` over the common pairs.
The `DBL_MAX` start value is modelled as `none`. -/
def minThreshold (commons : List (EdgeInfo × EdgeInfo)) : Option Rat :=
  commons.foldl
    (fun acc p =>
      match acc with
      | none => some (get_length_threshold p.1 + get_length_threshold p.2)
      | some m => some (min m (get_length_threshold p.1 + get_length_threshold p.2)))
    none

/-- `IsSegregated` (lines 860-952): the divided-carriageway test on the two
endpoint neighbor lists, the current edge record and the edge length. -/
def IsSegregated (v1 v2 : List EdgeInfo) (current : EdgeInfo) (edgeLength : Rat) : Bool :=
  if v1.length < 2 || v2.length < 2 then false
  else if current.name ≠ [] && !findNameIn (sortByName v1) current.name &&
      !findNameIn (sortByName v2) current.name then false
  else if (segCommons v1 v2).length < 2 then false
  else if ((segCommons v1 v2).filter equalClassPair).length < 2 then false
  else
    match minThreshold (segCommons v1 v2) with
    | none => true
    | some t => decide (edgeLength ≤ t)

/-! ## Theorems -/

/-- C1: the claimed invariant `w ≥ 1` is not what `FindComponents` checks.
The weight assertion on line 609 — message "edge distance < 1" — evaluates
`0 < max weight 1`, a tautology satisfied by every edge; in particular an
edge of weight 0 passes the assertion while violating `1 ≤ w`.  (The
endpoint-range half of the claim is checked by the assertions on lines
611-612, embedded as `fcEndpointAssert`.) -/
theorem c1_weight_assert_is_tautology :
    (∀ e : EdgeBasedEdge, fcWeightAssert e = true) ∧
      fcWeightAssert { source := 0, target := 0, data := ⟨0, true, false⟩ } = true ∧
      ¬(1 ≤ (({ source := 0, target := 0, data := ⟨0, true, false⟩ } :
          EdgeBasedEdge)).data.weight) := by
  refine ⟨fun e => ?_, by decide, by decide⟩
  simp only [fcWeightAssert, decide_eq_true_eq]
  exact lt_of_lt_of_le Int.zero_lt_one (le_max_right _ _)

/-- C8: when the accumulated edge list is empty after both ingestion
pipelines, `ParseOSMData` fails with the no-edges error and neither
`PrepareData` nor any later write phase runs. -/
theorem c8_empty_edges_fatal (inp : ParseInput) (props : ProfileProperties)
    (h : inp.all_edges_list = []) :
    (ParseOSMData inp props).2 = some .noEdgesRemaining ∧
      (ParseOSMData inp props).1 = [Phase.parseRelations, Phase.parseNodesWays] ∧
      Phase.prepareData ∉ (ParseOSMData inp props).1 ∧
      Phase.writeProfileProperties ∉ (ParseOSMData inp props).1 := by
  unfold ParseOSMData
  simp [h]

/-- C8 witness at the empty input. -/
theorem c8_empty_edges_fatal_witness :
    (ParseOSMData ⟨[], [], [], []⟩ ⟨[], []⟩).2 = some .noEdgesRemaining ∧
      (ParseOSMData ⟨[], [], [], []⟩ ⟨[], []⟩).1 =
        [Phase.parseRelations, Phase.parseNodesWays] ∧
      Phase.prepareData ∉ (ParseOSMData ⟨[], [], [], []⟩ ⟨[], []⟩).1 ∧
      Phase.writeProfileProperties ∉ (ParseOSMData ⟨[], [], [], []⟩ ⟨[], []⟩).1 :=
  c8_empty_edges_fatal ⟨[], [], [], []⟩ ⟨[], []⟩ rfl

/-- C2 is false as stated: with a profile declaring the illegal class name
"bad!" (and a non-empty parse result), the run does fail with the
invalid-declaration error, but both ingestion pipelines have already run —
the error is not reported before ingestion starts. -/
theorem c2_counterexample :
    isInvalidProfileDeclaration (.scn (.invalidClassName "bad!")) = true ∧
      (ParseOSMData ⟨[⟨0, 0⟩], ["bad!"], [], []⟩ ⟨[], []⟩).2 =
        some (.scn (.invalidClassName "bad!")) ∧
      Phase.parseRelations ∈ (ParseOSMData ⟨[⟨0, 0⟩], ["bad!"], [], []⟩ ⟨[], []⟩).1 ∧
      Phase.parseNodesWays ∈ (ParseOSMData ⟨[⟨0, 0⟩], ["bad!"], [], []⟩ ⟨[], []⟩).1 := by
  refine ⟨rfl, ?_, ?_, ?_⟩ <;> decide

/-- C2 amended: an invalid profile declaration (illegal class name, too many
classes, too many excludable combinations, undeclared class used) fails the
run, but the error is reported only after both ingestion pipelines and
`PrepareData` have completed. -/
theorem c2_amended_error_after_ingestion (inp : ParseInput) (props : ProfileProperties)
    (e : ExtractionError) (herr : (ParseOSMData inp props).2 = some e)
    (hinv : isInvalidProfileDeclaration e = true) :
    (ParseOSMData inp props).1.take 3 =
      [Phase.parseRelations, Phase.parseNodesWays, Phase.prepareData] := by
  unfold ParseOSMData at herr ⊢
  by_cases hE : inp.all_edges_list.isEmpty
  · rw [if_pos hE] at herr
    simp only [Option.some.injEq] at herr
    rw [← herr] at hinv
    simp [isInvalidProfileDeclaration] at hinv
  · rw [if_neg hE]
    rcases hscn : SetClassNames inp.class_names inp.classes_map props with e' | pair
    · simp [hscn]
    · rcases hsec : SetExcludableClasses pair.1 inp.excludable_classes pair.2 with e'' | props''
      · simp [hscn, hsec]
      · simp [hscn, hsec]

/-- C2 amended witness: the illegal-class-name run of the counterexample
indeed has the three pre-validation phases as its trace prefix. -/
theorem c2_amended_witness :
    (ParseOSMData ⟨[⟨0, 0⟩], ["bad!"], [], []⟩ ⟨[], []⟩).1.take 3 =
      [Phase.parseRelations, Phase.parseNodesWays, Phase.prepareData] :=
  c2_amended_error_after_ingestion ⟨[⟨0, 0⟩], ["bad!"], [], []⟩ ⟨[], []⟩
    (.scn (.invalidClassName "bad!")) (by decide) (by decide)

/-- A non-zero mask has at least one set bit below `mask + 1`, so
`getClassIndexes` is non-empty on it. -/
theorem getClassIndexes_ne_nil (mask : ClassData) (h : mask ≠ 0) :
    getClassIndexes mask ≠ [] := by
  obtain ⟨i, hi⟩ : ∃ i, mask.testBit i = true := by
    by_contra hall
    push_neg at hall
    refine h (Nat.eq_of_testBit_eq fun i => ?_)
    simp [Bool.eq_false_iff.mpr (hall i)]
  have h2i : 2 ^ i ≤ mask := Nat.testBit_implies_ge hi
  have hilt : i < mask + 1 :=
    lt_of_lt_of_le (Nat.lt_two_pow i) (le_trans h2i (Nat.le_succ mask))
  exact List.ne_nil_of_mem (List.mem_filter.mpr ⟨List.mem_range.mpr hilt, hi⟩)

/-- The final write loop of `SetClassNames` succeeds on any map whose masks
are non-zero, appending one `SetClassName` write (first set bit, name) per
entry, in iteration order. -/
theorem writeClassNames_ok (m : List (String × ClassData)) (props : ProfileProperties)
    (h : ∀ p ∈ m, p.2 ≠ 0) :
    writeClassNames props m = .ok
      { props with
          class_name_writes := props.class_name_writes ++
            m.map (fun p => ((getClassIndexes p.2).headD 0, p.1)) } := by
  induction m generalizing props with
  | nil => simp [writeClassNames]
  | cons p rest ih =>
    have hp : p.2 ≠ 0 := h p (by simp)
    rcases hg : getClassIndexes p.2 with _ | ⟨idx, t⟩
    · exact absurd hg (getClassIndexes_ne_nil p.2 hp)
    · unfold writeClassNames
      simp only [hg]
      rw [ih _ (fun q hq => h q (by simp [hq]))]
      simp [hg, List.append_assoc]

/-- C9: with an empty declared class-name list, `SetClassNames` performs no
validation and throws for no contents of the classes map (any map whose
masks are non-zero — a zero mask would make the final loop read the front of
an empty index range); every entry of the map, however ill-formed its name,
is written unvalidated into the profile properties, and the map is left
unchanged. -/
theorem c9_empty_class_names_never_throws (classes_map : List (String × ClassData))
    (props : ProfileProperties) (h : ∀ p ∈ classes_map, p.2 ≠ 0) :
    SetClassNames [] classes_map props = .ok (classes_map,
      { props with
          class_name_writes := props.class_name_writes ++
            classes_map.map (fun p => ((getClassIndexes p.2).headD 0, p.1)) }) := by
  simp [SetClassNames, writeClassNames_ok classes_map props h]

/-- C9 witness: an entry whose key is not a legal class name (it contains a
space and a bang) and was never declared still passes and is written at its
mask's bit index. -/
theorem c9_witness :
    SetClassNames [] [("bad name!", 4)] ⟨[], []⟩ =
      .ok ([("bad name!", 4)], ⟨[(2, "bad name!")], []⟩) := by
  rw [c9_empty_class_names_never_throws [("bad name!", 4)] ⟨[], []⟩ (by decide)]
  rfl

/-- The write loop of `SetExcludableClasses` appends exactly the non-zero
resolved masks, paired with consecutive indices starting at the given one. -/
theorem writeExcludable_spec (classes_map : List (String × ClassData))
    (ex : List (List String)) (props : ProfileProperties) (i : Nat) :
    writeExcludable classes_map props i ex =
      { props with
          excludable_writes := props.excludable_writes ++
            List.enumFrom i
              ((ex.map (resolveMask classes_map)).filter (fun mask => decide (0 < mask))) } := by
  induction ex generalizing props i with
  | nil => simp [writeExcludable]
  | cons comb rest ih =>
    unfold writeExcludable
    by_cases hm : resolveMask classes_map comb > 0
    · rw [if_pos hm, ih]
      simp [hm, List.append_assoc]
    · rw [if_neg hm, ih]
      have : decide (0 < resolveMask classes_map comb) = false := by
        simpa using hm
      simp [this]

/-- C10: when at most `MAX_EXCLUDABLE_CLASSES` combinations are declared
(otherwise the function throws before writing anything),
`SetExcludableClasses` writes the empty mask at index 0 and then the
non-zero resolved masks of the surviving combinations, in declaration
order, at the consecutive indices 1, 2, …; zero-mask combinations are
skipped without consuming an index. -/
theorem c10_excludable_write_layout (classes_map : List (String × ClassData))
    (ex : List (List String)) (props : ProfileProperties)
    (h : ex.length ≤ MAX_EXCLUDABLE_CLASSES) :
    SetExcludableClasses classes_map ex props = .ok
      { props with
          excludable_writes := props.excludable_writes ++
            (0, 0) :: List.enumFrom 1
              ((ex.map (resolveMask classes_map)).filter (fun mask => decide (0 < mask))) } := by
  unfold SetExcludableClasses
  rw [if_neg (by omega), writeExcludable_spec]
  simp [List.append_assoc]

/-- C10 witness: four declared combinations, of which the first and the
third resolve to the zero mask; the survivors land at indices 1 and 2. -/
theorem c10_witness :
    SetExcludableClasses [("a", 1), ("b", 2)] [["zz"], ["a"], ["nope"], ["a", "b"]] ⟨[], []⟩ =
      .ok ⟨[], [(0, 0), (1, 1), (2, 3)]⟩ := by
  rw [c10_excludable_write_layout [("a", 1), ("b", 2)] [["zz"], ["a"], ["nope"], ["a", "b"]]
      ⟨[], []⟩ (by decide)]
  rfl

/-- The compaction loop keeps nothing exactly when no flag is true (arrays
of equal length). -/
theorem filterByFlags_eq_nil_iff (segs : List EdgeBasedNodeSegment) (flags : List Bool)
    (h : segs.length = flags.length) :
    (filterByFlags segs flags = [] ↔ ∀ f ∈ flags, f = false) := by
  induction segs generalizing flags with
  | nil =>
    cases flags with
    | nil => simp [filterByFlags]
    | cons f frest => simp at h
  | cons s srest ih =>
    cases flags with
    | nil => simp at h
    | cons f frest =>
      cases f with
      | false =>
        have e1 : filterByFlags (s :: srest) (false :: frest) = filterByFlags srest frest := rfl
        rw [e1, ih frest (by simpa using h)]
        simp
      | true =>
        have e1 : filterByFlags (s :: srest) (true :: frest) =
            s :: filterByFlags srest frest := rfl
        rw [e1]
        simp

/-- The compaction loop returns the segments at true-flagged indices, in
index order. -/
theorem filterByFlags_eq_selected (segs : List EdgeBasedNodeSegment) (flags : List Bool)
    (h : segs.length = flags.length) :
    filterByFlags segs flags = (List.range flags.length).filterMap
      (fun i => if flags.getD i false then segs[i]? else none) := by
  induction segs generalizing flags with
  | nil =>
    cases flags with
    | nil => simp [filterByFlags]
    | cons f frest => simp at h
  | cons s srest ih =>
    cases flags with
    | nil => simp at h
    | cons f frest =>
      have hlen : srest.length = frest.length := by simpa using h
      cases f with
      | false =>
        have e1 : filterByFlags (s :: srest) (false :: frest) = filterByFlags srest frest := rfl
        rw [e1, ih frest hlen, List.length_cons, List.range_succ_eq_map]
        simp only [List.filterMap_cons, List.filterMap_map]
        simp only [List.getD_cons_zero, Bool.false_eq_true, if_false]
        congr 1
        funext i
        simp [Function.comp]
      | true =>
        have e1 : filterByFlags (s :: srest) (true :: frest) =
            s :: filterByFlags srest frest := rfl
        rw [e1, ih frest hlen, List.length_cons, List.range_succ_eq_map]
        simp only [List.filterMap_cons, List.filterMap_map]
        simp only [List.getD_cons_zero, if_true, List.getElem?_cons_zero]
        congr 1
        congr 1
        funext i
        simp [Function.comp]

/-- C7: with `node_is_startpoint` and the segment list of equal length,
`BuildRTree` fails fatally exactly when no entry of `node_is_startpoint` is
true; otherwise it builds the R-tree over precisely the segments whose index
is flagged true. -/
theorem c7_rtree_filter_and_failure (segs : List EdgeBasedNodeSegment) (flags : List Bool)
    (h : segs.length = flags.length) :
    (BuildRTree segs flags = .error .noSnappableEdges ↔ ∀ f ∈ flags, f = false) ∧
      ∀ kept, BuildRTree segs flags = .ok kept →
        kept = (List.range flags.length).filterMap
          (fun i => if flags.getD i false then segs[i]? else none) := by
  constructor
  · rw [← filterByFlags_eq_nil_iff segs flags h]
    unfold BuildRTree
    constructor
    · intro hb
      by_cases hk : (filterByFlags segs flags).length = 0
      · exact List.length_eq_zero.mp hk
      · rw [if_neg hk] at hb
        exact absurd hb (by simp)
    · intro hnil
      rw [if_pos (by simp [hnil])]
  · intro kept hb
    unfold BuildRTree at hb
    by_cases hk : (filterByFlags segs flags).length = 0
    · rw [if_pos hk] at hb
      exact absurd hb (by simp)
    · rw [if_neg hk] at hb
      simp only [Except.ok.injEq] at hb
      rw [← hb, filterByFlags_eq_selected segs flags h]

/-- C7 witness: two segments, only the second flagged; the build succeeds on
exactly that segment, and the error case is characterized. -/
theorem c7_witness :
    ((BuildRTree [⟨⟨0, true⟩, ⟨1, true⟩⟩, ⟨⟨2, true⟩, ⟨3, false⟩⟩] [false, true] =
          .error .noSnappableEdges ↔
        ∀ f ∈ [false, true], f = false) ∧
      ∀ kept,
        BuildRTree [⟨⟨0, true⟩, ⟨1, true⟩⟩, ⟨⟨2, true⟩, ⟨3, false⟩⟩] [false, true] = .ok kept →
          kept = (List.range (List.length [false, true])).filterMap
            (fun i => if List.getD [false, true] i false then
              [(⟨⟨0, true⟩, ⟨1, true⟩⟩ : EdgeBasedNodeSegment), ⟨⟨2, true⟩, ⟨3, false⟩⟩][i]?
            else none)) :=
  c7_rtree_filter_and_failure [⟨⟨0, true⟩, ⟨1, true⟩⟩, ⟨⟨2, true⟩, ⟨3, false⟩⟩] [false, true]
    (by decide)

/-- Sorted insertion preserves membership. -/
theorem mem_insertByName (x y : EdgeInfo) (l : List EdgeInfo) :
    y ∈ insertByName x l ↔ y = x ∨ y ∈ l := by
  induction l with
  | nil => simp [insertByName]
  | cons z rest ih =>
    unfold insertByName
    by_cases hz : z.name < x.name
    · rw [if_pos hz]
      simp only [List.mem_cons, ih]
      try tauto
    · rw [if_neg hz]
      simp only [List.mem_cons]
      try tauto

/-- The name sort preserves membership. -/
theorem mem_sortByName (y : EdgeInfo) (l : List EdgeInfo) :
    y ∈ sortByName l ↔ y ∈ l := by
  induction l with
  | nil => simp [sortByName]
  | cons z rest ih =>
    unfold sortByName
    rw [mem_insertByName]
    simp [ih]

/-- Sorted insertion adds one element. -/
theorem length_insertByName (x : EdgeInfo) (l : List EdgeInfo) :
    (insertByName x l).length = l.length + 1 := by
  induction l with
  | nil => rfl
  | cons z rest ih =>
    unfold insertByName
    by_cases hz : z.name < x.name
    · rw [if_pos hz]
      simp [ih]
    · rw [if_neg hz]
      simp

/-- The name sort preserves length. -/
theorem length_sortByName (l : List EdgeInfo) : (sortByName l).length = l.length := by
  induction l with
  | nil => rfl
  | cons z rest ih =>
    unfold sortByName
    rw [length_insertByName, ih, List.length_cons]

/-- Each matched pair consumes one entry of each list, so there are no more
common pairs than entries on either side. -/
theorem mergeCommonsGo_length_le (fuel : Nat) (l1 l2 : List EdgeInfo) :
    (mergeCommonsGo fuel l1 l2).length ≤ l1.length ∧
      (mergeCommonsGo fuel l1 l2).length ≤ l2.length := by
  induction fuel generalizing l1 l2 with
  | zero => cases l1 <;> cases l2 <;> simp [mergeCommonsGo]
  | succ fuel ih =>
    cases l1 with
    | nil => simp [mergeCommonsGo]
    | cons a r1 =>
      cases l2 with
      | nil => simp [mergeCommonsGo]
      | cons b r2 =>
        unfold mergeCommonsGo
        by_cases heq : a.name = b.name
        · rw [if_pos heq]
          rcases ih r1 r2 with ⟨ih1, ih2⟩
          by_cases hemp : a.name = []
          · rw [if_pos hemp]
            constructor <;> simp <;> omega
          · rw [if_neg hemp]
            constructor <;> simp <;> omega
        · rw [if_neg heq]
          by_cases hlt : a.name < b.name
          · rw [if_pos hlt]
            rcases ih r1 (b :: r2) with ⟨ih1, ih2⟩
            constructor <;> simp at ih2 ⊢ <;> omega
          · rw [if_neg hlt]
            rcases ih (a :: r1) r2 with ⟨ih1, ih2⟩
            constructor <;> simp at ih1 ⊢ <;> omega

/-- `mergeCommons` never yields more pairs than either input list has
entries. -/
theorem mergeCommons_length_le (l1 l2 : List EdgeInfo) :
    (mergeCommons l1 l2).length ≤ l1.length ∧ (mergeCommons l1 l2).length ≤ l2.length :=
  mergeCommonsGo_length_le (l1.length + l2.length) l1 l2

/-- `findNameIn` holds exactly when some entry carries the probed name. -/
theorem findNameIn_iff (v : List EdgeInfo) (name : List Char) :
    findNameIn v name = true ↔ ∃ e ∈ v, e.name = name := by
  unfold findNameIn
  simp

/-- The threshold fold with a seeded minimum computes the plain minimum
fold. -/
theorem minThreshold_go (l : List (EdgeInfo × EdgeInfo)) (m : Rat) :
    (l.foldl
        (fun acc p =>
          match acc with
          | none => some (get_length_threshold p.1 + get_length_threshold p.2)
          | some m => some (min m (get_length_threshold p.1 + get_length_threshold p.2)))
        (some m)) =
      some (l.foldl
        (fun m p => min m (get_length_threshold p.1 + get_length_threshold p.2)) m) := by
  induction l generalizing m with
  | nil => rfl
  | cons p rest ih => simp [ih]

/-- A bound is below the seeded minimum fold exactly when it is below the
seed and every folded value. -/
theorem le_fold_min (l : List (EdgeInfo × EdgeInfo)) (m L : Rat) :
    (L ≤ l.foldl (fun m p => min m (get_length_threshold p.1 + get_length_threshold p.2)) m ↔
      L ≤ m ∧ ∀ p ∈ l, L ≤ get_length_threshold p.1 + get_length_threshold p.2) := by
  induction l generalizing m with
  | nil => simp
  | cons p rest ih =>
    simp only [List.foldl_cons, ih, le_min_iff, List.mem_cons]
    constructor
    · rintro ⟨⟨h1, h2⟩, h3⟩
      exact ⟨h1, fun q hq => by rcases hq with rfl | hq; exact h2; exact h3 q hq⟩
    · rintro ⟨h1, h2⟩
      exact ⟨⟨h1, h2 p (Or.inl rfl)⟩, fun q hq => h2 q (Or.inr hq)⟩

/-- The threshold is undefined (`DBL_MAX` untouched) only on an empty
common-pair list. -/
theorem minThreshold_eq_none_iff (l : List (EdgeInfo × EdgeInfo)) :
    minThreshold l = none ↔ l = [] := by
  cases l with
  | nil => simp [minThreshold]
  | cons p rest =>
    unfold minThreshold
    rw [List.foldl_cons]
    have := minThreshold_go rest (get_length_threshold p.1 + get_length_threshold p.2)
    simp only at this ⊢
    rw [this]
    simp

/-- A length is below the computed threshold exactly when it is below
`t(a) + t(b)` for every common pair. -/
theorem le_minThreshold_iff (l : List (EdgeInfo × EdgeInfo)) (t L : Rat)
    (h : minThreshold l = some t) :
    (L ≤ t ↔ ∀ p ∈ l, L ≤ get_length_threshold p.1 + get_length_threshold p.2) := by
  cases l with
  | nil => simp [minThreshold] at h
  | cons p rest =>
    unfold minThreshold at h
    rw [List.foldl_cons] at h
    have hg := minThreshold_go rest (get_length_threshold p.1 + get_length_threshold p.2)
    simp only at hg h
    rw [hg] at h
    simp only [Option.some.injEq] at h
    rw [← h, le_fold_min]
    constructor
    · rintro ⟨h1, h2⟩ q hq
      rcases List.mem_cons.mp hq with rfl | hq
      · exact h1
      · exact h2 q hq
    · intro hall
      exact ⟨hall p (List.mem_cons_self p rest), fun q hq => hall q (List.mem_cons_of_mem p hq)⟩

/-- C5: `IsSegregated` answers true only if all gates hold: when the current
edge is named, one endpoint's neighbor list carries that name; the
sort-merge intersection on names yields at least two common pairs; and at
least two common pairs agree on their class masks. -/
theorem c5_gates_necessary (v1 v2 : List EdgeInfo) (current : EdgeInfo) (edgeLength : Rat)
    (h : IsSegregated v1 v2 current edgeLength = true) :
    (current.name ≠ [] →
        (∃ e ∈ v1, e.name = current.name) ∨ (∃ e ∈ v2, e.name = current.name)) ∧
      2 ≤ (segCommons v1 v2).length ∧
      2 ≤ ((segCommons v1 v2).filter equalClassPair).length := by
  unfold IsSegregated at h
  by_cases h1 : (v1.length < 2 || v2.length < 2) = true
  · rw [if_pos h1] at h
    exact absurd h (by simp)
  · rw [if_neg h1] at h
    by_cases h2 : (current.name ≠ [] && !findNameIn (sortByName v1) current.name &&
        !findNameIn (sortByName v2) current.name) = true
    · rw [if_pos h2] at h
      exact absurd h (by simp)
    · rw [if_neg h2] at h
      by_cases h3 : (segCommons v1 v2).length < 2
      · rw [if_pos h3] at h
        exact absurd h (by simp)
      · rw [if_neg h3] at h
        by_cases h4 : ((segCommons v1 v2).filter equalClassPair).length < 2
        · rw [if_pos h4] at h
          exact absurd h (by simp)
        · refine ⟨?_, by omega, by omega⟩
          intro hname
          by_cases hf1 : findNameIn (sortByName v1) current.name = true
          · left
            obtain ⟨e, he, hen⟩ := (findNameIn_iff _ _).mp hf1
            exact ⟨e, (mem_sortByName e v1).mp he, hen⟩
          · by_cases hf2 : findNameIn (sortByName v2) current.name = true
            · right
              obtain ⟨e, he, hen⟩ := (findNameIn_iff _ _).mp hf2
              exact ⟨e, (mem_sortByName e v2).mp he, hen⟩
            · exact absurd (by simp [hname, Bool.eq_false_iff.mpr hf1,
                Bool.eq_false_iff.mpr hf2]) h2

/-- Concrete neighbor list at the first endpoint of the C5/C6 witness. -/
def segWitnessV1 : List EdgeInfo :=
  [⟨1, "Broadway".data, 0, 1, .primary⟩, ⟨2, "5th".data, 0, 1, .primary⟩]

/-- Concrete neighbor list at the second endpoint of the C5/C6 witness. -/
def segWitnessV2 : List EdgeInfo :=
  [⟨3, "Broadway".data, 1, 1, .primary⟩, ⟨4, "5th".data, 1, 1, .primary⟩]

/-- Concrete current-edge record of the C5/C6 witness. -/
def segWitnessCur : EdgeInfo := ⟨0, "Broadway".data, 0, 1, .primary⟩

/-- The witness input passes the detector at length 12 (threshold 40). -/
theorem segWitnessEval :
    IsSegregated segWitnessV1 segWitnessV2 segWitnessCur 12 = true := by
  have hsc : segCommons segWitnessV1 segWitnessV2 =
      [(⟨2, "5th".data, 0, 1, .primary⟩, ⟨4, "5th".data, 1, 1, .primary⟩),
        (⟨1, "Broadway".data, 0, 1, .primary⟩, ⟨3, "Broadway".data, 1, 1, .primary⟩)] := by
    decide
  unfold IsSegregated
  rw [if_neg (by decide), if_neg (by decide), if_neg (by decide), if_neg (by decide), hsc]
  simp only [minThreshold, List.foldl, get_length_threshold]
  norm_num

/-- C5 witness: a divided "Broadway" with two named cross streets passes the
detector at length 12, so all three gates are forced. -/
theorem c5_witness :
    (segWitnessCur.name ≠ [] →
        (∃ e ∈ segWitnessV1, e.name = segWitnessCur.name) ∨
          (∃ e ∈ segWitnessV2, e.name = segWitnessCur.name)) ∧
      2 ≤ (segCommons segWitnessV1 segWitnessV2).length ∧
      2 ≤ ((segCommons segWitnessV1 segWitnessV2).filter equalClassPair).length :=
  c5_gates_necessary segWitnessV1 segWitnessV2 segWitnessCur 12 segWitnessEval

/-- C6: under the gates, `IsSegregated` answers true exactly when the edge
length is at most `t(a) + t(b)` for every common pair, i.e. at most the
minimum of `t(a) + t(b)` over the common pairs. -/
theorem c6_threshold_characterization (v1 v2 : List EdgeInfo) (current : EdgeInfo)
    (edgeLength : Rat)
    (hname : current.name ≠ [] →
      findNameIn (sortByName v1) current.name = true ∨
        findNameIn (sortByName v2) current.name = true)
    (hcom : 2 ≤ (segCommons v1 v2).length)
    (hcls : 2 ≤ ((segCommons v1 v2).filter equalClassPair).length) :
    (IsSegregated v1 v2 current edgeLength = true ↔
      ∀ p ∈ segCommons v1 v2,
        edgeLength ≤ get_length_threshold p.1 + get_length_threshold p.2) := by
  have hle := mergeCommons_length_le (sortByName v1) (sortByName v2)
  rw [length_sortByName, length_sortByName] at hle
  have hcomM : 2 ≤ (mergeCommons (sortByName v1) (sortByName v2)).length := hcom
  have hlen1 : ¬(v1.length < 2 || v2.length < 2) = true := by
    simp only [Bool.or_eq_true, decide_eq_true_eq]
    push_neg
    omega
  have hgate : ¬(current.name ≠ [] && !findNameIn (sortByName v1) current.name &&
      !findNameIn (sortByName v2) current.name) = true := by
    intro hcontra
    simp only [Bool.and_eq_true, Bool.not_eq_true', decide_eq_true_eq] at hcontra
    rcases hname hcontra.1.1 with hf | hf
    · rw [hcontra.1.2] at hf
      exact Bool.false_ne_true hf
    · rw [hcontra.2] at hf
      exact Bool.false_ne_true hf
  unfold IsSegregated
  rw [if_neg hlen1, if_neg hgate, if_neg (by omega), if_neg (by omega)]
  rcases hmt : minThreshold (segCommons v1 v2) with _ | t
  · rw [minThreshold_eq_none_iff] at hmt
    rw [hmt] at hcom
    simp at hcom
  · simp only [decide_eq_true_eq]
    exact le_minThreshold_iff (segCommons v1 v2) t edgeLength hmt

/-- C6 witness: on the concrete divided-carriageway input all gates hold and
the equivalence is instantiated at length 12. -/
theorem c6_witness :
    (IsSegregated segWitnessV1 segWitnessV2 segWitnessCur 12 = true ↔
      ∀ p ∈ segCommons segWitnessV1 segWitnessV2,
        (12 : Rat) ≤ get_length_threshold p.1 + get_length_threshold p.2) :=
  c6_threshold_characterization segWitnessV1 segWitnessV2 segWitnessCur 12
    (fun _ => by decide) (by decide) (by decide)

/-- Membership in one expansion step: already in the set, or the target of
an edge leaving it. -/
theorem mem_reachStep (E : List (Nat × Nat)) (S : Finset Nat) (b : Nat) :
    b ∈ reachStep E S ↔ b ∈ S ∨ ∃ p ∈ E, p.1 ∈ S ∧ p.2 = b := by
  unfold reachStep
  simp only [Finset.mem_union, List.mem_toFinset, List.mem_filterMap]
  constructor
  · rintro (hb | ⟨p, hp, hsome⟩)
    · exact Or.inl hb
    · refine Or.inr ⟨p, hp, ?_⟩
      by_cases h1 : p.1 ∈ S
      · rw [if_pos h1] at hsome
        exact ⟨h1, Option.some.inj hsome⟩
      · rw [if_neg h1] at hsome
        exact absurd hsome (by simp)
  · rintro (hb | ⟨p, hp, h1, h2⟩)
    · exact Or.inl hb
    · exact Or.inr ⟨p, hp, by rw [if_pos h1, h2]⟩

/-- Expansion only grows the set. -/
theorem subset_reachStep (E : List (Nat × Nat)) (S : Finset Nat) : S ⊆ reachStep E S :=
  fun b hb => (mem_reachStep E S b).mpr (Or.inl hb)

/-- Expansion is monotone. -/
theorem reachStep_mono (E : List (Nat × Nat)) {S T : Finset Nat} (h : S ⊆ T) :
    reachStep E S ⊆ reachStep E T := by
  intro b hb
  rw [mem_reachStep] at hb ⊢
  rcases hb with hb | ⟨p, hp, h1, h2⟩
  · exact Or.inl (h hb)
  · exact Or.inr ⟨p, hp, h h1, h2⟩

/-- Iterated expansion is monotone in the start set. -/
theorem reachStep_iterate_mono (E : List (Nat × Nat)) (k : Nat) {S T : Finset Nat}
    (h : S ⊆ T) : (reachStep E)^[k] S ⊆ (reachStep E)^[k] T := by
  induction k generalizing S T with
  | zero => simpa using h
  | succ k ih =>
    rw [Function.iterate_succ_apply, Function.iterate_succ_apply]
    exact ih (reachStep_mono E h)

/-- Earlier iterates are contained in later ones. -/
theorem reachStep_iterate_le (E : List (Nat × Nat)) (S : Finset Nat) {j k : Nat}
    (h : j ≤ k) : (reachStep E)^[j] S ⊆ (reachStep E)^[k] S := by
  induction k with
  | zero =>
    rw [Nat.le_zero.mp h]
  | succ k ih =>
    rcases Nat.lt_or_ge j (k + 1) with hlt | hge
    · refine subset_trans (ih (Nat.lt_succ_iff.mp hlt)) ?_
      rw [Function.iterate_succ_apply']
      exact subset_reachStep E _
    · rw [Nat.le_antisymm h hge]

/-- A step fixpoint is a fixpoint of every iterate. -/
theorem reachStep_iterate_fixed (E : List (Nat × Nat)) (S : Finset Nat)
    (h : reachStep E S = S) (m : Nat) : (reachStep E)^[m] S = S := by
  induction m with
  | zero => rfl
  | succ m ih => rw [Function.iterate_succ_apply', ih, h]

/-- Every iterate stays inside the start set plus all edge targets. -/
theorem reachStep_iterate_bound (E : List (Nat × Nat)) (s : Nat) (k : Nat) :
    (reachStep E)^[k] {s} ⊆ {s} ∪ (E.map Prod.snd).toFinset := by
  induction k with
  | zero =>
    simp
  | succ k ih =>
    rw [Function.iterate_succ_apply']
    intro b hb
    rw [mem_reachStep] at hb
    rcases hb with hb | ⟨p, hp, _, h2⟩
    · exact ih hb
    · exact Finset.mem_union_right _ (List.mem_toFinset.mpr (h2 ▸ List.mem_map_of_mem _ hp))

/-- While no fixpoint has been reached, the iterates grow strictly, so their
cardinality outgrows the step count. -/
theorem reachStep_card_grow (E : List (Nat × Nat)) (s : Nat) (k : Nat)
    (h : ∀ j < k, (reachStep E)^[j + 1] {s} ≠ (reachStep E)^[j] {s}) :
    k + 1 ≤ ((reachStep E)^[k] {s}).card := by
  induction k with
  | zero => simp
  | succ k ih =>
    have hss : (reachStep E)^[k] {s} ⊂ (reachStep E)^[k + 1] {s} := by
      refine Finset.ssubset_iff_subset_ne.mpr ⟨?_, ?_⟩
      · exact reachStep_iterate_le E {s} (Nat.le_succ k)
      · exact fun heq => h k (Nat.lt_succ_self k) heq.symm
    have hk := ih (fun j hj => h j (Nat.lt_succ_of_lt hj))
    have := Finset.card_lt_card hss
    omega

/-- After `E.length + 1` iterations the expansion has reached a fixpoint. -/
theorem reachStep_reachSet_fixed (E : List (Nat × Nat)) (s : Nat) :
    reachStep E (reachSet E s) = reachSet E s := by
  unfold reachSet
  by_cases hex : ∃ j < E.length + 1,
      (reachStep E)^[j + 1] {s} = (reachStep E)^[j] {s}
  · obtain ⟨j, hj, hfix⟩ := hex
    have hfix' : reachStep E ((reachStep E)^[j] {s}) = (reachStep E)^[j] {s} :=
      (Function.iterate_succ_apply' (reachStep E) j {s}).symm.trans hfix
    have hiter : (reachStep E)^[E.length + 1] {s} = (reachStep E)^[j] {s} := by
      have hsplit : E.length + 1 = (E.length + 1 - j) + j := by omega
      rw [hsplit, Function.iterate_add_apply]
      exact reachStep_iterate_fixed E _ hfix' _
    rw [hiter]
    exact hfix'
  · exfalso
    push_neg at hex
    have hgrow := reachStep_card_grow E s (E.length + 1) (fun j hj => hex j hj)
    have hbound := Finset.card_le_card (reachStep_iterate_bound E s (E.length + 1))
    have hcard : ({s} ∪ (E.map Prod.snd).toFinset).card ≤ 1 + E.length := by
      refine le_trans (Finset.card_union_le _ _) ?_
      have h1 : ({s} : Finset Nat).card = 1 := Finset.card_singleton s
      have h2 : (E.map Prod.snd).toFinset.card ≤ E.length := by
        refine le_trans (List.toFinset_card_le _) ?_
        rw [List.length_map]
      omega
    omega

/-- Reachability is reflexive. -/
theorem self_mem_reachSet (E : List (Nat × Nat)) (s : Nat) : s ∈ reachSet E s := by
  unfold reachSet
  exact reachStep_iterate_le E {s} (Nat.zero_le _) (Finset.mem_singleton_self s)

/-- Everything reachable from a member of a reach set is in that reach set. -/
theorem reachSet_subset_of_mem (E : List (Nat × Nat)) {s t : Nat}
    (h : t ∈ reachSet E s) : reachSet E t ⊆ reachSet E s := by
  unfold reachSet
  have hstep : ∀ k, (reachStep E)^[k] {t} ⊆ reachSet E s := by
    intro k
    induction k with
    | zero => simpa using h
    | succ k ih =>
      rw [Function.iterate_succ_apply']
      refine subset_trans (reachStep_mono E ih) ?_
      rw [reachStep_reachSet_fixed]
  exact hstep (E.length + 1)

/-- Reachability is transitive. -/
theorem reachSet_trans (E : List (Nat × Nat)) {s t u : Nat}
    (hst : t ∈ reachSet E s) (htu : u ∈ reachSet E t) : u ∈ reachSet E s :=
  reachSet_subset_of_mem E hst htu

/-- Following one edge of the graph keeps us in the reach set. -/
theorem reachSet_edge (E : List (Nat × Nat)) {s a b : Nat} (hedge : (a, b) ∈ E)
    (ha : a ∈ reachSet E s) : b ∈ reachSet E s := by
  have hb : b ∈ reachStep E (reachSet E s) :=
    (mem_reachStep E _ b).mpr (Or.inr ⟨(a, b), hedge, ha, rfl⟩)
  rw [reachStep_reachSet_fixed] at hb
  exact hb

/-- The expansion step only depends on which pairs are in the edge list. -/
theorem reachStep_congr {E E' : List (Nat × Nat)} (h : ∀ p, p ∈ E ↔ p ∈ E')
    (S : Finset Nat) : reachStep E S = reachStep E' S := by
  ext b
  rw [mem_reachStep, mem_reachStep]
  constructor
  · rintro (hb | ⟨p, hp, h1, h2⟩)
    · exact Or.inl hb
    · exact Or.inr ⟨p, (h p).mp hp, h1, h2⟩
  · rintro (hb | ⟨p, hp, h1, h2⟩)
    · exact Or.inl hb
    · exact Or.inr ⟨p, (h p).mpr hp, h1, h2⟩

/-- The reach set only depends on which pairs are in the edge list. -/
theorem reachSet_congr {E E' : List (Nat × Nat)} (h : ∀ p, p ∈ E ↔ p ∈ E')
    (s : Nat) : reachSet E s = reachSet E' s := by
  have hsub : ∀ (F F' : List (Nat × Nat)), (∀ p, p ∈ F ↔ p ∈ F') →
      reachSet F s ⊆ reachSet F' s := by
    intro F F' hFF
    unfold reachSet
    have hstep : ∀ k, (reachStep F)^[k] {s} ⊆ reachSet F' s := by
      intro k
      induction k with
      | zero =>
        simpa using self_mem_reachSet F' s
      | succ k ih =>
        rw [Function.iterate_succ_apply', reachStep_congr hFF]
        refine subset_trans (reachStep_mono F' ih) ?_
        rw [reachStep_reachSet_fixed]
    exact hstep (F.length + 1)
  exact subset_antisymm (hsub E E' h) (hsub E' E (fun p => (h p).symm))

/-- Unfolding of `sameComponent` into the two reachability facts. -/
theorem sameComponent_iff (E : List (Nat × Nat)) (u v : Nat) :
    sameComponent E u v = true ↔ v ∈ reachSet E u ∧ u ∈ reachSet E v := by
  unfold sameComponent reachB
  simp

/-- Every node shares a component with itself. -/
theorem sameComponent_refl (E : List (Nat × Nat)) (v : Nat) :
    sameComponent E v v = true := by
  rw [sameComponent_iff]
  exact ⟨self_mem_reachSet E v, self_mem_reachSet E v⟩

/-- Mutually reachable nodes get the same component label. -/
theorem GetComponentID_eq_of_same (E : List (Nat × Nat)) (n u v : Nat)
    (_hu : u < n) (hv : v < n) (h : sameComponent E u v = true) :
    GetComponentID E n u = GetComponentID E n v := by
  obtain ⟨huv, hvu⟩ := (sameComponent_iff E u v).mp h
  have hch : ∀ w, sameComponent E w u = sameComponent E w v := by
    intro w
    have hiff : sameComponent E w u = true ↔ sameComponent E w v = true := by
      rw [sameComponent_iff, sameComponent_iff]
      constructor
      · rintro ⟨hwu, huw⟩
        exact ⟨reachSet_trans E hwu huv, reachSet_trans E hvu huw⟩
      · rintro ⟨hwv, hvw⟩
        exact ⟨reachSet_trans E hwv hvu, reachSet_trans E huv hvw⟩
    cases hw1 : sameComponent E w u <;> cases hw2 : sameComponent E w v
    · rfl
    · exact absurd (hiff.mpr hw2) (by simp [hw1])
    · exact absurd (hiff.mp hw1) (by simp [hw2])
    · rfl
  unfold GetComponentID
  rw [List.filter_congr (fun w _ => hch w)]
  rcases hL : (List.range n).filter (fun w => sameComponent E w v) with _ | ⟨x, t⟩
  · exfalso
    have : v ∈ (List.range n).filter (fun w => sameComponent E w v) :=
      List.mem_filter.mpr ⟨List.mem_range.mpr hv, sameComponent_refl E v⟩
    rw [hL] at this
    simp at this
  · rfl

/-- The component label only depends on which pairs are in the edge list. -/
theorem GetComponentID_congr {E E' : List (Nat × Nat)} (h : ∀ p, p ∈ E ↔ p ∈ E')
    (n v : Nat) : GetComponentID E n v = GetComponentID E' n v := by
  unfold GetComponentID
  have hch : ∀ w, sameComponent E w v = sameComponent E' w v := by
    intro w
    unfold sameComponent reachB
    rw [reachSet_congr h, reachSet_congr h]
  rw [List.filter_congr (fun w _ => hch w)]

/-- The component size only depends on which pairs are in the edge list. -/
theorem GetComponentSize_congr {E E' : List (Nat × Nat)} (h : ∀ p, p ∈ E ↔ p ∈ E')
    (n c : Nat) : GetComponentSize E n c = GetComponentSize E' n c := by
  unfold GetComponentSize
  rw [List.filter_congr (fun v _ => by rw [GetComponentID_congr h n v])]

/-- Both mate-edges of an enabled-reverse segment are materialized. -/
theorem mem_fcMateEdges_of (segs : List EdgeBasedNodeSegment) (seg : EdgeBasedNodeSegment)
    (hmem : seg ∈ segs) (hen : seg.reverse_segment_id.enabled = true) :
    (seg.forward_segment_id.id, seg.reverse_segment_id.id) ∈ fcMateEdges segs ∧
      (seg.reverse_segment_id.id, seg.forward_segment_id.id) ∈ fcMateEdges segs := by
  induction segs with
  | nil => simp at hmem
  | cons s rest ih =>
    rcases List.mem_cons.mp hmem with rfl | hmem'
    · unfold fcMateEdges
      rw [if_pos hen]
      constructor <;> simp
    · obtain ⟨h1, h2⟩ := ih hmem'
      unfold fcMateEdges
      constructor <;> exact List.mem_append_right _ (by assumption)

/-- Sorted insertion of a materialized edge preserves membership. -/
theorem mem_insertEdge (x y : Nat × Nat) (l : List (Nat × Nat)) :
    y ∈ insertEdge x l ↔ y = x ∨ y ∈ l := by
  induction l with
  | nil => simp [insertEdge]
  | cons z rest ih =>
    unfold insertEdge
    by_cases hz : edgeLE x z = true
    · rw [if_pos hz]
      simp only [List.mem_cons]
      try tauto
    · rw [if_neg hz]
      simp only [List.mem_cons, ih]
      try tauto

/-- The edge sort preserves membership. -/
theorem mem_sortEdges (y : Nat × Nat) (l : List (Nat × Nat)) :
    y ∈ sortEdges l ↔ y ∈ l := by
  induction l with
  | nil => simp [sortEdges]
  | cons z rest ih =>
    unfold sortEdges
    rw [mem_insertEdge]
    simp [ih]

/-- The `std::unique` tail walk preserves membership (with the kept head). -/
theorem mem_dedupAdjGo (l : List (Nat × Nat)) (prev x : Nat × Nat) :
    x ∈ prev :: dedupAdjGo prev l ↔ x ∈ prev :: l := by
  induction l generalizing prev with
  | nil => simp [dedupAdjGo]
  | cons b rest ih =>
    unfold dedupAdjGo
    by_cases hb : b = prev
    · rw [if_pos hb, ih prev, hb]
      simp only [List.mem_cons]
      try tauto
    · rw [if_neg hb]
      have hbx := ih b
      simp only [List.mem_cons] at hbx ⊢
      try tauto

/-- `std::unique` preserves membership. -/
theorem mem_dedupAdj (l : List (Nat × Nat)) (x : Nat × Nat) :
    x ∈ dedupAdj l ↔ x ∈ l := by
  cases l with
  | nil => simp [dedupAdj]
  | cons a rest =>
    unfold dedupAdj
    exact mem_dedupAdjGo rest a x

/-- Sorting and deduplicating the materialized edges keeps exactly the same
edge set. -/
theorem mem_fcGraphEdges (input_edge_list : List EdgeBasedEdge)
    (input_node_segments : List EdgeBasedNodeSegment) (x : Nat × Nat) :
    x ∈ fcGraphEdges input_edge_list input_node_segments ↔
      x ∈ fcEdges input_edge_list input_node_segments := by
  unfold fcGraphEdges
  rw [mem_dedupAdj, mem_sortEdges]

/-- The label `FindComponents` computes for one in-range node. -/
theorem FindComponents_getElem (small_component_size N : Nat) (l : List EdgeBasedEdge)
    (segs : List EdgeBasedNodeSegment) (n : Nat) (h : n < N) :
    (FindComponents small_component_size N l segs)[n]? = some
      { id := 1 + GetComponentID (fcGraphEdges l segs) N n,
        is_tiny := decide (GetComponentSize (fcGraphEdges l segs) N
          (GetComponentID (fcGraphEdges l segs) N n) < small_component_size) } := by
  unfold FindComponents
  rw [List.getElem?_map, List.getElem?_range h, Option.map_some']

/-- C4: after `FindComponents`, every in-range edge-based node is labelled
with 1 plus its SCC component id and a tiny flag set exactly when the
component's size is below `small_component_size`.  The component functions
are stated over the raw materialized edge list: sorting and deduplication
(lines 637-638) do not change the components. -/
theorem c4_component_labels (small_component_size N : Nat) (l : List EdgeBasedEdge)
    (segs : List EdgeBasedNodeSegment) (n : Nat) (h : n < N) :
    (FindComponents small_component_size N l segs)[n]? = some
      { id := 1 + GetComponentID (fcEdges l segs) N n,
        is_tiny := decide (GetComponentSize (fcEdges l segs) N
          (GetComponentID (fcEdges l segs) N n) < small_component_size) } := by
  rw [FindComponents_getElem small_component_size N l segs n h,
    GetComponentID_congr (mem_fcGraphEdges l segs) N n,
    GetComponentSize_congr (mem_fcGraphEdges l segs) N]

/-- C4 witness: a single isolated edge-based node gets component label 1 and
is tiny for threshold 1 exactly when its component size is below 1. -/
theorem c4_witness :
    (FindComponents 1 1 [] [])[0]? = some
      { id := 1 + GetComponentID (fcEdges [] []) 1 0,
        is_tiny := decide (GetComponentSize (fcEdges [] []) 1
          (GetComponentID (fcEdges [] []) 1 0) < 1) } :=
  c4_component_labels 1 1 [] [] 0 (by decide)

/-- C3: for every segment with an enabled reverse id, the component id
recorded by `FindComponents` for the forward segment equals the one recorded
for the reverse segment (the mate-edges inserted on lines 626-635 force
mutual reachability). -/
theorem c3_forward_reverse_same_component (small_component_size N : Nat)
    (l : List EdgeBasedEdge) (segs : List EdgeBasedNodeSegment)
    (seg : EdgeBasedNodeSegment) (hmem : seg ∈ segs)
    (hen : seg.reverse_segment_id.enabled = true)
    (hf : seg.forward_segment_id.id < N) (hr : seg.reverse_segment_id.id < N) :
    ((FindComponents small_component_size N l segs)[seg.forward_segment_id.id]?.map
        ComponentID.id) =
      ((FindComponents small_component_size N l segs)[seg.reverse_segment_id.id]?.map
        ComponentID.id) := by
  rw [FindComponents_getElem small_component_size N l segs _ hf,
    FindComponents_getElem small_component_size N l segs _ hr]
  obtain ⟨hm1, hm2⟩ := mem_fcMateEdges_of segs seg hmem hen
  have h1 : (seg.forward_segment_id.id, seg.reverse_segment_id.id) ∈ fcGraphEdges l segs :=
    (mem_fcGraphEdges l segs _).mpr (List.mem_append_right _ hm1)
  have h2 : (seg.reverse_segment_id.id, seg.forward_segment_id.id) ∈ fcGraphEdges l segs :=
    (mem_fcGraphEdges l segs _).mpr (List.mem_append_right _ hm2)
  have hsame : sameComponent (fcGraphEdges l segs) seg.forward_segment_id.id
      seg.reverse_segment_id.id = true := by
    rw [sameComponent_iff]
    constructor
    · exact reachSet_edge _ h1 (self_mem_reachSet _ _)
    · exact reachSet_edge _ h2 (self_mem_reachSet _ _)
  rw [GetComponentID_eq_of_same (fcGraphEdges l segs) N _ _ hf hr hsame]

/-- C3 witness: one segment with forward id 0 and enabled reverse id 1 in a
two-node graph; both nodes carry the same recorded component id. -/
theorem c3_witness :
    ((FindComponents 1 2 [] [⟨⟨0, true⟩, ⟨1, true⟩⟩])[0]?.map ComponentID.id) =
      ((FindComponents 1 2 [] [⟨⟨0, true⟩, ⟨1, true⟩⟩])[1]?.map ComponentID.id) :=
  c3_forward_reverse_same_component 1 2 [] [⟨⟨0, true⟩, ⟨1, true⟩⟩]
    ⟨⟨0, true⟩, ⟨1, true⟩⟩ (List.mem_singleton_self _) rfl (by decide) (by decide)

end OSRM
